import Mathlib

/-!
Verification of the stream aggregation and ranking pipeline of annatar
(`src/annatar/api.py`) and of the OffCloud debrid provider
(`src/annatar/debrid/offcloud_api.py`).

The shallow embedding below translates the pipeline code into pure Lean
functions.  External collaborators (metadata lookup, indexer search, debrid
HTTP calls) are represented as oracle values carried in environment records,
exactly at the `await` boundaries where the Python code consumes their
results.  Python machine integers are arbitrary precision, so `Int`/`Nat`
are used directly.  Helpers of the repository that are not part of the two
source files (`Torrent.parse_title`, `human.rank_quality`, `human.bytes`)
are modelled from the specification and marked as such.
-/

namespace Annatar

/-- StreamLink (annatar.debrid.models): url, raw release name, size in bytes. -/
structure StreamLink where
  url : String
  name : String
  size : Nat
deriving DecidableEq

/-- Result of parsing a release name (resolution / audio / audio channels). -/
structure TorrentMeta where
  resolution : String
  audio : String
  audio_channels : String
deriving DecidableEq

/-- Stream (annatar.stremio): one display record per accepted link. -/
structure Stream where
  url : String
  title : String
  name : String
deriving DecidableEq

/-- StreamResponse (annatar.stremio): terminal artifact of one search request. -/
structure StreamResponse where
  streams : List Stream
  error : Option String := none
  cached : Bool := false
deriving DecidableEq

/-- MediaInfo (annatar.meta.cinemeta): the fields `_search` reads. -/
structure MediaInfo where
  name : String
  releaseInfo : String
deriving DecidableEq

/-- An exception escaping a pipeline stage.  `typeError` is raised by Python
for a call with an unexpected keyword argument, `valueError` by `int()` on a
non-numeric string, `other` stands for any other `Exception`. -/
inductive Fault where
  | typeError
  | valueError
  | other
deriving DecidableEq

/-- The stages of `_search`, in source order, used to record which stages ran. -/
inductive Stage where
  | uniqueCheck
  | metadataLookup
  | indexerSearch
  | aggregate
  | rankFormat
deriving DecidableEq

/-- One observation of the REQUEST_DURATION histogram with its labels
(api.py lines 186-197). -/
structure MetricsRecord where
  type : String
  debrid_service : String
  cached : Bool
  error : Bool
deriving DecidableEq

/- ----------------------------------------------------------------- -/
/- Spec-modelled helpers (code outside src/).                         -/
/- ----------------------------------------------------------------- -/

/-- Lower-cased character list of a string (case normalisation before
pattern matching, spec section 4.1). -/
def lowerData (s : String) : List Char := s.data.map Char.toLower

/-- Does `needle` occur at the head of `hay`? -/
def startsWithL : List Char → List Char → Bool
  | _, [] => true
  | [], _ :: _ => false
  | h :: hs, n :: ns => h == n && startsWithL hs ns

/-- Does `needle` occur anywhere inside `hay`? -/
def containsL (hay needle : List Char) : Bool :=
  match hay with
  | [] => startsWithL [] needle
  | _ :: hs => startsWithL hay needle || containsL hs needle

/-- Resolution markers recognised by the title parser, best first. -/
def resolutionPatterns : List String := ["2160p", "1080p", "720p", "480p"]

/-- Audio codec markers recognised by the title parser, best first. -/
def audioPatterns : List String := ["atmos", "truehd", "dts", "ddp", "aac", "ac3"]

/-- Audio channel layout markers recognised by the title parser. -/
def channelsPatterns : List String := ["7.1", "5.1", "2.0"]

/-- First pattern of `pats` occurring in `chars`, else `dflt`. -/
def firstMatch (pats : List String) (dflt : String) (chars : List Char) : String :=
  match pats.find? (fun p => containsL chars p.data) with
  | some p => p
  | none => dflt

/-- Modelled from the spec: the Title Metadata Parser (section 4.1) realised
in the repository by `Torrent.parse_title`, which is not under src/.  It is a
pure total function: the release name is case-normalised, the resolution is
the first recognised marker occurring in it ("unknown" when none matches) and
the audio fields are the first matching markers ("" when none matches). -/
def parse_title (name : String) : TorrentMeta :=
  let chars := lowerData name
  { resolution := firstMatch resolutionPatterns "unknown" chars
  , audio := firstMatch audioPatterns "" chars
  , audio_channels := firstMatch channelsPatterns "" chars }

/-- Resolution label of a release name, as used for bucketing in `_search`. -/
def parseRes (name : String) : String := (parse_title name).resolution

/-- Quality tier of a resolution label, higher is better. -/
def resolutionTier : String → Nat
  | "2160p" => 4
  | "1080p" => 3
  | "720p" => 2
  | "480p" => 1
  | _ => 0

/-- Quality tier of an audio codec label, higher is better; always below 8. -/
def audioTier : String → Nat
  | "atmos" => 6
  | "truehd" => 5
  | "dts" => 4
  | "ddp" => 3
  | "aac" => 2
  | "ac3" => 1
  | _ => 0

/-- Modelled from the spec: the quality score (section 4.3) realised in the
repository by `human.rank_quality`, which is not under src/.  Deterministic
score of a release name: resolution tier first, then audio tier. -/
def rank_quality (name : String) : Nat :=
  let meta := parse_title name
  8 * resolutionTier meta.resolution + audioTier meta.audio

/-- Decimal digit as a character. -/
def natDigit : Nat → Char
  | 0 => '0'
  | 1 => '1'
  | 2 => '2'
  | 3 => '3'
  | 4 => '4'
  | 5 => '5'
  | 6 => '6'
  | 7 => '7'
  | 8 => '8'
  | _ => '9'

/-- Decimal digits of `n`, most significant first (`fuel` bounds recursion). -/
def renderNatAux : Nat → Nat → List Char
  | 0, _ => []
  | _ + 1, 0 => []
  | fuel + 1, n => renderNatAux fuel (n / 10) ++ [natDigit (n % 10)]

/-- Decimal rendering of a natural number. -/
def renderNat (n : Nat) : String :=
  if n == 0 then "0" else String.mk (renderNatAux n n)

/-- Render a quantity of tenths as a number with one decimal place. -/
def fmtTenths (t : Nat) : String := renderNat (t / 10) ++ "." ++ renderNat (t % 10)

/-- Byte units used by the human-readable size rendering. -/
def humanUnits : List String := ["B", "KiB", "MiB", "GiB", "TiB", "PiB"]

/-- Step through the units, dividing by 1024 while the value is too large. -/
def humanBytesGo (tenths : Nat) : List String → String
  | [] => fmtTenths tenths
  | [u] => fmtTenths tenths ++ u
  | u :: _ :: us => if tenths < 10240 then fmtTenths tenths ++ u
                    else humanBytesGo (tenths / 1024) ("" :: us).tail

/-- Modelled from the spec: human-readable byte rendering (section 4.3,
"size rendered in a human-readable byte unit, e.g. 1.2 GiB") realised in the
repository by `human.bytes`, which is not under src/. -/
def humanBytes (size : Nat) : String := humanBytesGo (size * 10) humanUnits

/- ----------------------------------------------------------------- -/
/- Aggregation engine (api.py, `_search` lines 66-87).                -/
/- ----------------------------------------------------------------- -/

/-- Python `math.ceil(m / 2)` for an arbitrary-precision integer `m`
(Lean integer `/` is floor division, as Python `//`). -/
def ceilHalf (m : Int) : Int := (m + 1) / 2

/-- Value of a key in an insertion-ordered bucket map, `[]` when absent. -/
def bucketGet (bs : List (String × List StreamLink)) (k : String) : List StreamLink :=
  match bs.find? (fun e => e.1 == k) with
  | some e => e.2
  | none => []

/-- Key membership in a bucket map. -/
def bucketHasKey (bs : List (String × List StreamLink)) (k : String) : Bool :=
  bs.any (fun e => e.1 == k)

/-- The `defaultdict(list)` access `resolution_links[resolution]`: inserts an
empty bucket at the end of the key order when the key is absent. -/
def bucketTouch (bs : List (String × List StreamLink)) (k : String) :
    List (String × List StreamLink) :=
  if bucketHasKey bs k then bs else bs ++ [(k, [])]

/-- Append a link to the bucket of `k` (first entry with that key). -/
def bucketAppend : List (String × List StreamLink) → String → StreamLink →
    List (String × List StreamLink)
  | [], k, l => [(k, [l])]
  | e :: rest, k, l =>
    if e.1 == k then (e.1, e.2 ++ [l]) :: rest else e :: bucketAppend rest k l

/-- State of the aggregation loop of `_search`.  `resolution_links`,
`total_links` and `total_processed` mirror the local variables of the same
names; `stop_is_set` is the state of the `asyncio.Event` created at line 69
(initially unset; the loop body never calls `stop.set()`); `acceptedTrace` is
a specification ghost recording the accepted links in acceptance (= arrival)
order, used only to state ordering properties. -/
structure AggState where
  resolution_links : List (String × List StreamLink)
  total_links : Nat
  total_processed : Nat
  stop_is_set : Bool
  acceptedTrace : List StreamLink
deriving DecidableEq

/-- State before the `async for` loop (api.py lines 66-69). -/
def initAggState : AggState :=
  { resolution_links := [], total_links := 0, total_processed := 0
  , stop_is_set := false, acceptedTrace := [] }

/-- The `async for` aggregation loop of `_search` (api.py lines 70-87),
parameterised by the resolution parser applied to each link name.  Every
arrival bumps `total_processed`; a link whose bucket already holds
`ceil(max_results / 2)` links is discarded; otherwise it is appended to its
bucket and `total_links` is bumped; when `total_links >= max_results` the
loop breaks (without touching the stop event, exactly as the source). -/
def aggLoop (parse : String → String) (max_results : Int) :
    List StreamLink → AggState → AggState
  | [], s => s
  | link :: rest, s =>
    let s1 : AggState := { s with total_processed := s.total_processed + 1 }
    let resolution := parse link.name
    let bs := bucketTouch s1.resolution_links resolution
    if ceilHalf max_results ≤ ((bucketGet bs resolution).length : Int) then
      aggLoop parse max_results rest { s1 with resolution_links := bs }
    else
      let s2 : AggState := { s1 with
        resolution_links := bucketAppend bs resolution link
        , total_links := s1.total_links + 1
        , acceptedTrace := s1.acceptedTrace ++ [link] }
      if max_results ≤ (s2.total_links : Int) then s2
      else aggLoop parse max_results rest s2

/-- Run the aggregation loop on a resolver output sequence from the
initial state. -/
def runAgg (parse : String → String) (arrivals : List StreamLink)
    (max_results : Int) : AggState :=
  aggLoop parse max_results arrivals initAggState

/-- Total length of all buckets. -/
def sumLens (bs : List (String × List StreamLink)) : Nat :=
  (bs.map (fun e => e.2.length)).sum

/-- The `chain(*resolution_links.values())` iteration (api.py line 92):
buckets concatenated in key-insertion order. -/
def chainLinks (s : AggState) : List StreamLink :=
  (s.resolution_links.map (fun e => e.2)).flatten

/- ----------------------------------------------------------------- -/
/- Ranking and formatting (api.py lines 90-123).                      -/
/- ----------------------------------------------------------------- -/

/-- Insert `x` in front of the first element whose rank does not exceed the
rank of `x` (stability: `x` comes from earlier in the input). -/
def insertRanked (rank : String → Nat) (x : StreamLink) :
    List StreamLink → List StreamLink
  | [] => [x]
  | y :: ys =>
    if rank y.name ≤ rank x.name then x :: y :: ys
    else y :: insertRanked rank x ys

/-- Stable descending sort by rank: the embedding of Python
`sorted(..., key=lambda x: rank(x.name), reverse=True)` (api.py lines 90-96),
which is a stable sort by the same total preorder, hence extensionally equal
to any stable sorting algorithm for it. -/
def sortRanked (rank : String → Nat) : List StreamLink → List StreamLink
  | [] => []
  | x :: xs => insertRanked rank x (sortRanked rank xs)

/-- The size line of a stream title (api.py line 109). -/
def sizeLine (link : StreamLink) : String := "💾" ++ humanBytes link.size

/-- Construction of one display `Stream` from an accepted link
(api.py lines 100-121). -/
def mkStream (short_name : String) (link : StreamLink) : Stream :=
  let meta := parse_title link.name
  { url := link.url
  , title := String.intercalate "\n"
      [link.name, "📺" ++ meta.resolution, "🔊" ++ meta.audio, sizeLine link]
  , name := (String.intercalate " "
      ["[" ++ short_name ++ "+]", "Annatar", meta.resolution, meta.audio_channels]).trim }

/-- The formatting loop of `_search` (api.py lines 98-122): one `Stream`
appended per sorted link, in order. -/
def buildStreams (short_name : String) (links : List StreamLink) : List Stream :=
  links.map (mkStream short_name)

/- ----------------------------------------------------------------- -/
/- Search orchestration (api.py lines 31-64 and 160-197).             -/
/- ----------------------------------------------------------------- -/

/-- Numeric value of a list of decimal digit characters. -/
def digitsToNat (cs : List Char) : Nat :=
  cs.foldl (fun acc c => 10 * acc + (c.toNat - 48)) 0

/-- The year extraction `int(re.split(r"\D", releaseInfo or "")[0])`
(api.py line 53): the leading digit run of the string, `none` when `int()`
would raise `ValueError` on the empty first chunk. -/
def parseYear (s : String) : Option Nat :=
  let digits := s.data.takeWhile Char.isDigit
  if digits.isEmpty then none else some (digitsToNat digits)

/-- Oracle results of the external calls awaited by `_search`: the
first-seen flag of `db.unique_add`, the metadata lookup result, the indexer
search result and the links the resolver stream yields. -/
structure SearchEnv where
  unique_first : Bool
  media_info : Option MediaInfo
  torrents : List String
  arrivals : List StreamLink
deriving DecidableEq

/-- Keyword parameters accepted by `OffCloud.get_stream_links`
(offcloud_api.py lines 171-178). -/
def offcloud_stream_links_params : List String :=
  ["torrents", "stop", "max_results", "season", "episode"]

/-- Keyword arguments passed by `_search` to `debrid.get_stream_links`
(api.py lines 70-75). -/
def stream_links_call_kwargs : List String :=
  ["torrents", "season_episode", "stop", "max_results"]

/-- Python call binding: a keyword argument that matches no parameter of the
callee (which declares no `**kwargs`) raises `TypeError` at the call. -/
def unexpected_kwarg (params kwargs : List String) : Bool :=
  kwargs.any (fun k => !(params.contains k))

/-- The `_search` coroutine (api.py lines 31-123), over the oracle
environment, returning the outcome (normal response or escaping exception)
together with the list of stages that ran.  `providerParams` is the keyword
parameter list of the provider's `get_stream_links`; the stream-consuming
loop is only entered when the call binds, otherwise the `TypeError` escapes.
The query construction and indexer filtering only feed the indexer-search
oracle and are absorbed into `env.torrents`; the year extraction is kept
because `int()` can raise. -/
def _search (providerParams : List String) (short_name : String)
    (env : SearchEnv) (max_results : Int) :
    Except Fault StreamResponse × List Stage :=
  match env.media_info with
  | none =>
      (.ok { streams := [], error := some "Error getting media info" }
      , [.uniqueCheck, .metadataLookup])
  | some mi =>
    match parseYear mi.releaseInfo with
    | none => (.error .valueError, [.uniqueCheck, .metadataLookup])
    | some _ =>
      if unexpected_kwarg providerParams stream_links_call_kwargs then
        (.error .typeError, [.uniqueCheck, .metadataLookup, .indexerSearch])
      else
        let st := runAgg parseRes env.arrivals max_results
        let streams := buildStreams short_name (sortRanked rank_quality (chainLinks st))
        (.ok { streams := streams }
        , [.uniqueCheck, .metadataLookup, .indexerSearch, .aggregate, .rankFormat])

/-- The `search` wrapper (api.py lines 160-197) over the outcome of
`_search`: a fault is caught and converted to the generic error response;
the `finally` block records the duration histogram labels exactly once on
every exit path, with `error` set from the response's error field
(`True if res and res.error else False`) and `cached` from the response. -/
def search (type : String) (debrid_id : String)
    (outcome : Except Fault StreamResponse) : StreamResponse × List MetricsRecord :=
  match outcome with
  | .ok res =>
      (res, [{ type := type, debrid_service := debrid_id
             , cached := res.cached, error := res.error.isSome }])
  | .error _ =>
      let res : StreamResponse := { streams := [], error := some "Error searching" }
      (res, [{ type := type, debrid_service := debrid_id
             , cached := res.cached, error := res.error.isSome }])

/- ----------------------------------------------------------------- -/
/- OffCloud provider (offcloud_api.py).                               -/
/- ----------------------------------------------------------------- -/

/-- The torrent info fields read by `OffCloud` (offcloud_models). -/
structure TorrentInfo where
  server : String
  file_name : String
  is_directory : Bool
deriving DecidableEq

/-- Result of `OffCloud.add_magent_link`: the fields read by
`get_stream_link`. -/
structure AddMagnetResponse where
  request_id : String
  status : String
deriving DecidableEq

/-- Result of `OffCloud.get_torrent_info`. -/
structure CloudStatusResponse where
  status : TorrentInfo
deriving DecidableEq

/-- Oracle results of the OffCloud HTTP sub-calls awaited by
`get_stream_link` and `create_download_link`. -/
structure OffCloudEnv where
  magnet_response : Option AddMagnetResponse
  torrent_info : Option CloudStatusResponse
  folder_links : Option (List String)
deriving DecidableEq

/-- The folder-link selection loop of `OffCloud.create_download_link`
(offcloud_api.py lines 112-123), parameterised by `human.is_video` and the
season/episode sets of `TorrentMeta.parse_title` (both outside src/).
A non-video link is skipped; with no season/episode filter the first video
link is returned; with both season and episode set the link must match both;
with exactly one of them set every link is skipped (both `if` bodies are
unreachable), as in the source. -/
def find_video_link (is_video : String → Bool)
    (seasonsOf episodesOf : String → List Nat) (season episode : Nat) :
    List String → Option String
  | [] => none
  | link :: rest =>
    if !(is_video link) then
      find_video_link is_video seasonsOf episodesOf season episode rest
    else if season == 0 && episode == 0 then some link
    else if season != 0 && episode != 0 then
      let base := (link.splitOn "/").getLastD ""
      if (seasonsOf base).contains season && (episodesOf base).contains episode then
        some link
      else find_video_link is_video seasonsOf episodesOf season episode rest
    else find_video_link is_video seasonsOf episodesOf season episode rest

/-- `OffCloud.create_download_link` (offcloud_api.py lines 99-123): a direct
download URL for a plain file, otherwise the first suitable link of the
explored folder (`if not response` also rejects an empty list). -/
def create_download_link (is_video : String → Bool)
    (seasonsOf episodesOf : String → List Nat) (env : OffCloudEnv)
    (request_id : String) (ti : TorrentInfo) (season episode : Nat) :
    Option String :=
  if !ti.is_directory then
    some ("https://" ++ ti.server ++ ".offcloud.com/cloud/download/"
          ++ request_id ++ "/" ++ ti.file_name)
  else
    match env.folder_links with
    | none => none
    | some [] => none
    | some (l :: ls) =>
        find_video_link is_video seasonsOf episodesOf season episode (l :: ls)

/-- `OffCloud.get_stream_link` (offcloud_api.py lines 125-156): resolves a
hash to a `StreamLink`, always constructing it with `size=0`. -/
def get_stream_link (is_video : String → Bool)
    (seasonsOf episodesOf : String → List Nat) (env : OffCloudEnv)
    (season episode : Nat) : Option StreamLink :=
  match env.magnet_response with
  | none => none
  | some mr =>
    if mr.status != "downloaded" then none
    else
      match env.torrent_info with
      | none => none
      | some ti =>
        match create_download_link is_video seasonsOf episodesOf env
            mr.request_id ti.status season episode with
        | none => none
        | some dl => some { url := dl, name := ti.status.file_name, size := 0 }

/-- Structural invariant of the aggregation state: bucket keys are distinct,
every bucket is exactly the accepted links of its resolution in acceptance
order, and the counters agree with the buckets. -/
def AggInv (parse : String → String) (s : AggState) : Prop :=
  (s.resolution_links.map (fun e => e.1)).Nodup ∧
  (∀ k, bucketGet s.resolution_links k
      = s.acceptedTrace.filter (fun l => parse l.name == k)) ∧
  sumLens s.resolution_links = s.total_links ∧
  s.acceptedTrace.length = s.total_links

/- ----------------------------------------------------------------- -/
/- Lemmas about the bucket map.                                       -/
/- ----------------------------------------------------------------- -/

theorem bucketGet_nil (k : String) : bucketGet [] k = [] := rfl

theorem bucketGet_cons (e : String × List StreamLink)
    (rest : List (String × List StreamLink)) (k : String) :
    bucketGet (e :: rest) k = if e.1 == k then e.2 else bucketGet rest k := by
  unfold bucketGet
  cases h : e.1 == k <;> simp [List.find?_cons, h]

theorem bucketHasKey_cons (e : String × List StreamLink)
    (rest : List (String × List StreamLink)) (k : String) :
    bucketHasKey (e :: rest) k = (e.1 == k || bucketHasKey rest k) := by
  simp [bucketHasKey]

theorem bucketGet_eq_nil_of_hasKey_false (bs : List (String × List StreamLink))
    (k : String) (h : bucketHasKey bs k = false) : bucketGet bs k = [] := by
  induction bs with
  | nil => rfl
  | cons e rest ih =>
    rw [bucketHasKey_cons] at h
    simp only [Bool.or_eq_false_iff] at h
    rw [bucketGet_cons, h.1]
    simp [ih h.2]

theorem bucketGet_touch (bs : List (String × List StreamLink)) (k k' : String) :
    bucketGet (bucketTouch bs k) k' = bucketGet bs k' := by
  unfold bucketTouch
  split
  · rfl
  · next h =>
    rw [Bool.not_eq_true] at h
    induction bs with
    | nil =>
      simp only [List.nil_append]
      rw [bucketGet_cons, bucketGet_nil]
      cases hk : (k == k') <;> simp [hk]
    | cons e rest ih =>
      rw [bucketHasKey_cons] at h
      simp only [Bool.or_eq_false_iff] at h
      simp only [List.cons_append]
      rw [bucketGet_cons, bucketGet_cons, ih h.2]

theorem bucketGet_append_self (bs : List (String × List StreamLink))
    (k : String) (l : StreamLink) :
    bucketGet (bucketAppend bs k l) k = bucketGet bs k ++ [l] := by
  induction bs with
  | nil =>
    unfold bucketAppend
    rw [bucketGet_cons, bucketGet_nil]
    simp
  | cons e rest ih =>
    unfold bucketAppend
    cases h : e.1 == k
    · simp only [h, Bool.false_eq_true, if_false]
      rw [bucketGet_cons, bucketGet_cons, h]
      simp [ih]
    · simp only [h, if_true]
      rw [bucketGet_cons, bucketGet_cons]
      simp [h]

theorem bucketGet_append_ne (bs : List (String × List StreamLink))
    (k k' : String) (l : StreamLink) (hne : k' ≠ k) :
    bucketGet (bucketAppend bs k l) k' = bucketGet bs k' := by
  induction bs with
  | nil =>
    unfold bucketAppend
    rw [bucketGet_cons, bucketGet_nil]
    have : (k == k') = false := by
      simpa using fun h => hne h.symm
    simp [this]
  | cons e rest ih =>
    unfold bucketAppend
    cases h : e.1 == k
    · simp only [h, Bool.false_eq_true, if_false]
      rw [bucketGet_cons, bucketGet_cons, ih]
    · simp only [h, if_true]
      rw [bucketGet_cons, bucketGet_cons]
      have he : e.1 = k := by simpa using h
      have : (e.1 == k') = false := by
        simp [he]
        exact fun hh => hne hh.symm
      simp [this]

theorem keys_touch_of_hasKey (bs : List (String × List StreamLink)) (k : String)
    (h : bucketHasKey bs k = true) :
    (bucketTouch bs k).map (fun e => e.1) = bs.map (fun e => e.1) := by
  unfold bucketTouch
  simp [h]

theorem keys_touch_of_not_hasKey (bs : List (String × List StreamLink)) (k : String)
    (h : bucketHasKey bs k = false) :
    (bucketTouch bs k).map (fun e => e.1) = bs.map (fun e => e.1) ++ [k] := by
  unfold bucketTouch
  simp [h]

theorem hasKey_touch (bs : List (String × List StreamLink)) (k : String) :
    bucketHasKey (bucketTouch bs k) k = true := by
  unfold bucketTouch
  split
  · assumption
  · simp [bucketHasKey]

theorem keys_append_of_hasKey (bs : List (String × List StreamLink))
    (k : String) (l : StreamLink) (h : bucketHasKey bs k = true) :
    (bucketAppend bs k l).map (fun e => e.1) = bs.map (fun e => e.1) := by
  induction bs with
  | nil => simp [bucketHasKey] at h
  | cons e rest ih =>
    rw [bucketHasKey_cons] at h
    unfold bucketAppend
    cases he : e.1 == k
    · simp only [he, Bool.false_eq_true, if_false]
      simp only [he, Bool.false_or] at h
      simp [ih h]
    · simp [he]

theorem not_mem_keys_of_hasKey_false (bs : List (String × List StreamLink))
    (k : String) (h : bucketHasKey bs k = false) :
    k ∉ bs.map (fun e => e.1) := by
  induction bs with
  | nil => simp
  | cons e rest ih =>
    rw [bucketHasKey_cons] at h
    simp only [Bool.or_eq_false_iff] at h
    have h1 : e.1 ≠ k := by simpa using h.1
    simp only [List.map_cons, List.mem_cons]
    push_neg
    exact ⟨fun hk => h1 hk.symm, ih h.2⟩

theorem nodup_keys_touch (bs : List (String × List StreamLink)) (k : String)
    (h : (bs.map (fun e => e.1)).Nodup) :
    ((bucketTouch bs k).map (fun e => e.1)).Nodup := by
  cases hk : bucketHasKey bs k
  · rw [keys_touch_of_not_hasKey bs k hk]
    simp only [List.nodup_append]
    refine ⟨h, List.nodup_singleton k, ?_⟩
    intro a ha hb
    rw [List.mem_singleton] at hb
    exact not_mem_keys_of_hasKey_false bs k hk (hb ▸ ha)
  · rw [keys_touch_of_hasKey bs k hk]
    exact h

theorem sumLens_touch (bs : List (String × List StreamLink)) (k : String) :
    sumLens (bucketTouch bs k) = sumLens bs := by
  unfold bucketTouch
  split
  · rfl
  · simp [sumLens]

theorem sumLens_append (bs : List (String × List StreamLink)) (k : String)
    (l : StreamLink) : sumLens (bucketAppend bs k l) = sumLens bs + 1 := by
  induction bs with
  | nil => simp [bucketAppend, sumLens]
  | cons e rest ih =>
    unfold bucketAppend
    cases he : e.1 == k
    · simp only [he, Bool.false_eq_true, if_false]
      simp [sumLens] at ih ⊢
      omega
    · simp only [he, if_true]
      simp [sumLens]
      omega

theorem entry_bucketGet (bs : List (String × List StreamLink))
    (k : String) (v : List StreamLink)
    (hnd : (bs.map (fun e => e.1)).Nodup) (hmem : (k, v) ∈ bs) :
    bucketGet bs k = v := by
  induction bs with
  | nil => simp at hmem
  | cons e rest ih =>
    simp only [List.map_cons, List.nodup_cons] at hnd
    rw [bucketGet_cons]
    rcases List.mem_cons.mp hmem with h | h
    · subst h
      simp
    · have hk : k ∈ rest.map (fun e => e.1) :=
        List.mem_map.mpr ⟨(k, v), h, rfl⟩
      have : e.1 ≠ k := fun he => hnd.1 (he ▸ hk)
      simp only [beq_eq_false_iff_ne.mpr this, Bool.false_eq_true, if_false]
      exact ih hnd.2 h

theorem hasKey_of_bucketGet_ne_nil (bs : List (String × List StreamLink))
    (k : String) (h : bucketGet bs k ≠ []) : k ∈ bs.map (fun e => e.1) := by
  by_contra hk
  have : bucketHasKey bs k = false := by
    unfold bucketHasKey
    rw [List.any_eq_false]
    intro e he hek
    exact hk (List.mem_map.mpr ⟨e, he, by simpa using hek⟩)
  exact h (bucketGet_eq_nil_of_hasKey_false bs k this)

/- ----------------------------------------------------------------- -/
/- Lemmas about ceilHalf and the loop skeleton.                       -/
/- ----------------------------------------------------------------- -/

theorem ceilHalf_nonneg (m : Int) (h : 0 ≤ m) : 0 ≤ ceilHalf m := by
  unfold ceilHalf; omega

theorem ceilHalf_nonpos (m : Int) (h : m ≤ 0) : ceilHalf m ≤ 0 := by
  unfold ceilHalf; omega

theorem ceilHalf_pos_of_lt (m : Int) (len : Nat)
    (h : ¬ ceilHalf m ≤ (len : Int)) : 0 < ceilHalf m := by
  omega

theorem aggLoop_nil (parse : String → String) (m : Int) (s : AggState) :
    aggLoop parse m [] s = s := rfl

theorem aggLoop_cons_skip (parse : String → String) (m : Int)
    (link : StreamLink) (rest : List StreamLink) (s : AggState)
    (h : ceilHalf m ≤ ((bucketGet (bucketTouch s.resolution_links (parse link.name))
        (parse link.name)).length : Int)) :
    aggLoop parse m (link :: rest) s =
      aggLoop parse m rest { s with
        total_processed := s.total_processed + 1
        , resolution_links := bucketTouch s.resolution_links (parse link.name) } := by
  conv_lhs => rw [aggLoop]
  dsimp only
  rw [if_pos h]

theorem aggLoop_cons_accept_break (parse : String → String) (m : Int)
    (link : StreamLink) (rest : List StreamLink) (s : AggState)
    (h : ¬ ceilHalf m ≤ ((bucketGet (bucketTouch s.resolution_links (parse link.name))
        (parse link.name)).length : Int))
    (hbr : m ≤ ((s.total_links + 1 : Nat) : Int)) :
    aggLoop parse m (link :: rest) s =
      { s with
        total_processed := s.total_processed + 1
        , resolution_links := bucketAppend (bucketTouch s.resolution_links (parse link.name))
            (parse link.name) link
        , total_links := s.total_links + 1
        , acceptedTrace := s.acceptedTrace ++ [link] } := by
  conv_lhs => rw [aggLoop]
  dsimp only
  rw [if_neg h, if_pos hbr]

theorem aggLoop_cons_accept_continue (parse : String → String) (m : Int)
    (link : StreamLink) (rest : List StreamLink) (s : AggState)
    (h : ¬ ceilHalf m ≤ ((bucketGet (bucketTouch s.resolution_links (parse link.name))
        (parse link.name)).length : Int))
    (hbr : ¬ m ≤ ((s.total_links + 1 : Nat) : Int)) :
    aggLoop parse m (link :: rest) s =
      aggLoop parse m rest { s with
        total_processed := s.total_processed + 1
        , resolution_links := bucketAppend (bucketTouch s.resolution_links (parse link.name))
            (parse link.name) link
        , total_links := s.total_links + 1
        , acceptedTrace := s.acceptedTrace ++ [link] } := by
  conv_lhs => rw [aggLoop]
  dsimp only
  rw [if_neg h, if_neg hbr]

theorem aggLoop_stop (parse : String → String) (m : Int) :
    ∀ (arrivals : List StreamLink) (s : AggState),
    (aggLoop parse m arrivals s).stop_is_set = s.stop_is_set := by
  intro arrivals
  induction arrivals with
  | nil => intro s; rfl
  | cons link rest ih =>
    intro s
    by_cases h : ceilHalf m ≤ ((bucketGet (bucketTouch s.resolution_links (parse link.name))
        (parse link.name)).length : Int)
    · rw [aggLoop_cons_skip parse m link rest s h]
      exact ih _
    · by_cases hbr : m ≤ ((s.total_links + 1 : Nat) : Int)
      · rw [aggLoop_cons_accept_break parse m link rest s h hbr]
      · rw [aggLoop_cons_accept_continue parse m link rest s h hbr]
        exact ih _

theorem aggInv_init (parse : String → String) : AggInv parse initAggState := by
  refine ⟨by simp [initAggState], fun k => by simp [initAggState, bucketGet], ?_, ?_⟩
  · simp [initAggState, sumLens]
  · simp [initAggState]

theorem aggLoop_inv (parse : String → String) (m : Int) :
    ∀ (arrivals : List StreamLink) (s : AggState),
    AggInv parse s → AggInv parse (aggLoop parse m arrivals s) := by
  intro arrivals
  induction arrivals with
  | nil => intro s h; exact h
  | cons link rest ih =>
    intro s h
    obtain ⟨hnd, hbk, hsum, hlen⟩ := h
    by_cases hskip : ceilHalf m ≤
        ((bucketGet (bucketTouch s.resolution_links (parse link.name))
          (parse link.name)).length : Int)
    · rw [aggLoop_cons_skip parse m link rest s hskip]
      apply ih
      exact ⟨nodup_keys_touch _ _ hnd,
        fun k => by rw [bucketGet_touch]; exact hbk k,
        by rw [sumLens_touch]; exact hsum, hlen⟩
    · have hstep : AggInv parse { s with
          total_processed := s.total_processed + 1
          , resolution_links := bucketAppend (bucketTouch s.resolution_links (parse link.name))
              (parse link.name) link
          , total_links := s.total_links + 1
          , acceptedTrace := s.acceptedTrace ++ [link] } := by
        refine ⟨?_, ?_, ?_, ?_⟩
        · show ((bucketAppend (bucketTouch s.resolution_links (parse link.name))
              (parse link.name) link).map (fun e => e.1)).Nodup
          rw [keys_append_of_hasKey _ _ _ (hasKey_touch _ _)]
          exact nodup_keys_touch _ _ hnd
        · intro k
          show bucketGet (bucketAppend (bucketTouch s.resolution_links (parse link.name))
              (parse link.name) link) k
            = (s.acceptedTrace ++ [link]).filter (fun l => parse l.name == k)
          rw [List.filter_append]
          by_cases hk : k = parse link.name
          · subst hk
            rw [bucketGet_append_self, bucketGet_touch, hbk]
            simp
          · rw [bucketGet_append_ne _ _ _ _ hk, bucketGet_touch, hbk]
            have : (parse link.name == k) = false :=
              beq_eq_false_iff_ne.mpr (fun hh => hk hh.symm)
            simp [this]
        · show sumLens (bucketAppend (bucketTouch s.resolution_links (parse link.name))
              (parse link.name) link) = s.total_links + 1
          rw [sumLens_append, sumLens_touch, hsum]
        · show (s.acceptedTrace ++ [link]).length = s.total_links + 1
          simp [hlen]
      by_cases hbr : m ≤ ((s.total_links + 1 : Nat) : Int)
      · rw [aggLoop_cons_accept_break parse m link rest s hskip hbr]
        exact hstep
      · rw [aggLoop_cons_accept_continue parse m link rest s hskip hbr]
        exact ih _ hstep

theorem runAgg_inv (parse : String → String) (arrivals : List StreamLink)
    (m : Int) : AggInv parse (runAgg parse arrivals m) :=
  aggLoop_inv parse m arrivals initAggState (aggInv_init parse)

theorem aggLoop_bounds (parse : String → String) (m : Int) :
    ∀ (arrivals : List StreamLink) (s : AggState),
    ((s.total_links : Int) < m ∨ (ceilHalf m ≤ 0 ∧ (s.total_links : Int) ≤ m)) →
    (∀ k, ((bucketGet s.resolution_links k).length : Int) ≤ ceilHalf m) →
    ((aggLoop parse m arrivals s).total_links : Int) ≤ m ∧
    (∀ k, ((bucketGet (aggLoop parse m arrivals s).resolution_links k).length : Int)
      ≤ ceilHalf m) := by
  intro arrivals
  induction arrivals with
  | nil =>
    intro s h1 h2
    rw [aggLoop_nil]
    refine ⟨?_, h2⟩
    rcases h1 with h | h
    · omega
    · exact h.2
  | cons link rest ih =>
    intro s h1 h2
    by_cases hskip : ceilHalf m ≤
        ((bucketGet (bucketTouch s.resolution_links (parse link.name))
          (parse link.name)).length : Int)
    · rw [aggLoop_cons_skip parse m link rest s hskip]
      apply ih
      · exact h1
      · intro k
        rw [bucketGet_touch]
        exact h2 k
    · have hceil : 0 < ceilHalf m := ceilHalf_pos_of_lt m _ hskip
      have htot : (s.total_links : Int) < m := by
        rcases h1 with h | h
        · exact h
        · omega
      have hbuck : ∀ k, ((bucketGet (bucketAppend
            (bucketTouch s.resolution_links (parse link.name))
            (parse link.name) link) k).length : Int) ≤ ceilHalf m := by
        intro k
        by_cases hk : k = parse link.name
        · subst hk
          rw [bucketGet_append_self]
          rw [bucketGet_touch] at hskip ⊢
          simp only [List.length_append, List.length_singleton]
          omega
        · rw [bucketGet_append_ne _ _ _ _ hk, bucketGet_touch]
          exact h2 k
      by_cases hbr : m ≤ ((s.total_links + 1 : Nat) : Int)
      · rw [aggLoop_cons_accept_break parse m link rest s hskip hbr]
        refine ⟨by simp; omega, hbuck⟩
      · rw [aggLoop_cons_accept_continue parse m link rest s hskip hbr]
        apply ih
        · left
          simp only []
          omega
        · exact hbuck

theorem aggLoop_nonpos_cap (parse : String → String) (m : Int)
    (hm : ceilHalf m ≤ 0) :
    ∀ (arrivals : List StreamLink) (s : AggState),
    (aggLoop parse m arrivals s).total_links = s.total_links ∧
    (aggLoop parse m arrivals s).acceptedTrace = s.acceptedTrace ∧
    (aggLoop parse m arrivals s).total_processed
      = s.total_processed + arrivals.length := by
  intro arrivals
  induction arrivals with
  | nil => intro s; exact ⟨rfl, rfl, rfl⟩
  | cons link rest ih =>
    intro s
    have hskip : ceilHalf m ≤
        ((bucketGet (bucketTouch s.resolution_links (parse link.name))
          (parse link.name)).length : Int) := by
      have : (0 : Int) ≤ ((bucketGet (bucketTouch s.resolution_links (parse link.name))
          (parse link.name)).length : Int) := by positivity
      omega
    rw [aggLoop_cons_skip parse m link rest s hskip]
    obtain ⟨h1, h2, h3⟩ := ih { s with
      total_processed := s.total_processed + 1
      , resolution_links := bucketTouch s.resolution_links (parse link.name) }
    refine ⟨h1, h2, ?_⟩
    rw [h3]
    simp
    omega

/- ----------------------------------------------------------------- -/
/- Lemmas about the stable descending sort.                           -/
/- ----------------------------------------------------------------- -/

theorem length_insertRanked (rank : String → Nat) (x : StreamLink) :
    ∀ l : List StreamLink, (insertRanked rank x l).length = l.length + 1 := by
  intro l
  induction l with
  | nil => rfl
  | cons y ys ih =>
    unfold insertRanked
    split
    · simp
    · simp [ih]

theorem length_sortRanked (rank : String → Nat) :
    ∀ l : List StreamLink, (sortRanked rank l).length = l.length := by
  intro l
  induction l with
  | nil => rfl
  | cons x xs ih =>
    unfold sortRanked
    rw [length_insertRanked, ih]
    rfl

theorem filter_insertRanked_ne (rank : String → Nat) (q : Nat) (x : StreamLink)
    (hx : (rank x.name == q) = false) :
    ∀ l : List StreamLink,
    (insertRanked rank x l).filter (fun y => rank y.name == q)
      = l.filter (fun y => rank y.name == q) := by
  intro l
  induction l with
  | nil => simp [insertRanked, hx]
  | cons y ys ih =>
    unfold insertRanked
    split
    · simp [List.filter_cons, hx]
    · simp only [List.filter_cons]
      rw [ih]

theorem filter_insertRanked_self (rank : String → Nat) (q : Nat) (x : StreamLink)
    (hx : (rank x.name == q) = true) :
    ∀ l : List StreamLink,
    (insertRanked rank x l).filter (fun y => rank y.name == q)
      = x :: l.filter (fun y => rank y.name == q) := by
  intro l
  induction l with
  | nil => simp [insertRanked, hx]
  | cons y ys ih =>
    unfold insertRanked
    split
    · simp [List.filter_cons, hx]
    · next hgt =>
      have hy : (rank y.name == q) = false := by
        have hxq : rank x.name = q := by simpa using hx
        apply beq_eq_false_iff_ne.mpr
        omega
      simp only [List.filter_cons, hy]
      simp only [Bool.false_eq_true, if_false]
      rw [ih]

theorem filter_sortRanked (rank : String → Nat) (q : Nat) :
    ∀ l : List StreamLink,
    (sortRanked rank l).filter (fun y => rank y.name == q)
      = l.filter (fun y => rank y.name == q) := by
  intro l
  induction l with
  | nil => rfl
  | cons x xs ih =>
    unfold sortRanked
    cases hx : (rank x.name == q)
    · rw [filter_insertRanked_ne rank q x hx, ih]
      simp [List.filter_cons, hx]
    · rw [filter_insertRanked_self rank q x hx, ih]
      simp [List.filter_cons, hx]

/- ----------------------------------------------------------------- -/
/- Lemmas about the modelled parser and quality score.                -/
/- ----------------------------------------------------------------- -/

theorem firstMatch_mem (pats : List String) (dflt : String) (chars : List Char) :
    firstMatch pats dflt chars ∈ pats ∨ firstMatch pats dflt chars = dflt := by
  unfold firstMatch
  cases h : pats.find? (fun p => containsL chars p.data) with
  | none => right; rfl
  | some p => left; exact List.mem_of_find?_eq_some h

theorem parse_title_resolution_mem (name : String) :
    (parse_title name).resolution ∈ ["2160p", "1080p", "720p", "480p", "unknown"] := by
  show firstMatch resolutionPatterns "unknown" (lowerData name) ∈ _
  rcases firstMatch_mem resolutionPatterns "unknown" (lowerData name) with h | h
  · simp [resolutionPatterns] at h
    simp
    tauto
  · rw [h]
    simp

theorem audioTier_lt (a : String) : audioTier a < 8 := by
  unfold audioTier
  split <;> omega

theorem resolutionTier_inj_on :
    ∀ r1 ∈ ["2160p", "1080p", "720p", "480p", "unknown"],
    ∀ r2 ∈ ["2160p", "1080p", "720p", "480p", "unknown"],
    resolutionTier r1 = resolutionTier r2 → r1 = r2 := by decide

theorem rank_eq_imp_res_eq (a b : String) (h : rank_quality a = rank_quality b) :
    (parse_title a).resolution = (parse_title b).resolution := by
  have ha := audioTier_lt (parse_title a).audio
  have hb := audioTier_lt (parse_title b).audio
  have htier : resolutionTier (parse_title a).resolution
      = resolutionTier (parse_title b).resolution := by
    unfold rank_quality at h
    dsimp only at h
    omega
  exact resolutionTier_inj_on _ (parse_title_resolution_mem a)
    _ (parse_title_resolution_mem b) htier

/- ----------------------------------------------------------------- -/
/- The chain of buckets, filtered by a score class.                   -/
/- ----------------------------------------------------------------- -/

theorem filter_flatten_eq {α : Type} (p : α → Bool) :
    ∀ L : List (List α), L.flatten.filter p = (L.map (List.filter p)).flatten := by
  intro L
  induction L with
  | nil => rfl
  | cons x xs ih => simp [List.filter_append, ih]

theorem flatten_eq_nil_of_all_nil {α : Type} :
    ∀ L : List (List α), (∀ l ∈ L, l = []) → L.flatten = [] := by
  intro L h
  induction L with
  | nil => rfl
  | cons x xs ih =>
    simp only [List.flatten_cons]
    rw [h x (List.mem_cons_self x xs), ih fun l hl => h l (List.mem_cons_of_mem x hl)]
    rfl

theorem flatten_if_single_absent (C : List StreamLink) :
    ∀ (bs : List (String × List StreamLink)) (k0 : String),
    k0 ∉ bs.map (fun e => e.1) →
    (bs.map (fun e => if e.1 == k0 then C else [])).flatten = [] := by
  intro bs
  induction bs with
  | nil => intro k0 _; rfl
  | cons e rest ih =>
    intro k0 hk
    simp only [List.map_cons, List.mem_cons, not_or] at hk
    simp only [List.map_cons, List.flatten_cons]
    rw [if_neg (by simpa using fun hh => hk.1 hh.symm), ih k0 hk.2]
    rfl

theorem flatten_if_single (C : List StreamLink) :
    ∀ (bs : List (String × List StreamLink)) (k0 : String),
    (bs.map (fun e => e.1)).Nodup → k0 ∈ bs.map (fun e => e.1) →
    (bs.map (fun e => if e.1 == k0 then C else [])).flatten = C := by
  intro bs
  induction bs with
  | nil => intro k0 _ hk; simp at hk
  | cons e rest ih =>
    intro k0 hnd hk
    simp only [List.map_cons, List.nodup_cons] at hnd
    simp only [List.map_cons, List.flatten_cons]
    by_cases he : e.1 = k0
    · rw [if_pos (by simpa using he)]
      rw [flatten_if_single_absent C rest k0 (he ▸ hnd.1)]
      simp
    · rw [if_neg (by simpa using he)]
      simp only [List.nil_append]
      apply ih k0 hnd.2
      rcases List.mem_cons.mp hk with h | h
      · exact absurd h.symm he
      · exact h

theorem filter_chainLinks (s : AggState) (hinv : AggInv parseRes s) (q : Nat) :
    (chainLinks s).filter (fun l => rank_quality l.name == q)
      = s.acceptedTrace.filter (fun l => rank_quality l.name == q) := by
  obtain ⟨hnd, hbk, _, _⟩ := hinv
  have h1 : (chainLinks s).filter (fun l => rank_quality l.name == q)
      = (s.resolution_links.map
          (fun e => e.2.filter (fun l => rank_quality l.name == q))).flatten := by
    unfold chainLinks
    rw [filter_flatten_eq, List.map_map]
    rfl
  have hentry : ∀ e ∈ s.resolution_links,
      e.2 = s.acceptedTrace.filter (fun l => parseRes l.name == e.1) := by
    intro e he
    have := entry_bucketGet s.resolution_links e.1 e.2 hnd (by
      have : (e.1, e.2) = e := rfl
      rw [this]; exact he)
    rw [← this, hbk e.1]
  cases hq : s.acceptedTrace.filter (fun l => rank_quality l.name == q) with
  | nil =>
    rw [h1]
    apply flatten_eq_nil_of_all_nil
    intro l hl
    rcases List.mem_map.mp hl with ⟨e, he, rfl⟩
    rw [hentry e he, List.filter_filter]
    apply List.filter_eq_nil_iff.mpr
    intro x hx hcontra
    have hFx : (rank_quality x.name == q) = true := by
      simp only [Bool.and_eq_true] at hcontra
      exact hcontra.1
    have : x ∈ s.acceptedTrace.filter (fun l => rank_quality l.name == q) :=
      List.mem_filter.mpr ⟨hx, hFx⟩
    rw [hq] at this
    simp at this
  | cons a rest =>
    have ha : a ∈ s.acceptedTrace.filter (fun l => rank_quality l.name == q) := by
      rw [hq]; exact List.mem_cons_self a rest
    have haq : (rank_quality a.name == q) = true := (List.mem_filter.mp ha).2
    have hat : a ∈ s.acceptedTrace := (List.mem_filter.mp ha).1
    have hres : ∀ x : StreamLink, (rank_quality x.name == q) = true →
        parseRes x.name = parseRes a.name := by
      intro x hx
      have hxa : rank_quality x.name = rank_quality a.name := by
        have h1 : rank_quality x.name = q := by simpa using hx
        have h2 : rank_quality a.name = q := by simpa using haq
        rw [h1, h2]
      exact rank_eq_imp_res_eq x.name a.name hxa
    have hentq : ∀ e ∈ s.resolution_links,
        e.2.filter (fun l => rank_quality l.name == q)
          = if e.1 == parseRes a.name
            then s.acceptedTrace.filter (fun l => rank_quality l.name == q)
            else [] := by
      intro e he
      rw [hentry e he, List.filter_filter]
      by_cases hk : e.1 = parseRes a.name
      · rw [if_pos (by simpa using hk)]
        apply List.filter_congr
        intro x hx
        cases hFx : (rank_quality x.name == q)
        · simp
        · have : (parseRes x.name == e.1) = true := by
            rw [hres x hFx, hk]
            simp
          simp [this]
      · rw [if_neg (by simpa using hk)]
        apply List.filter_eq_nil_iff.mpr
        intro x hx hcontra
        simp only [Bool.and_eq_true] at hcontra
        have := hres x hcontra.1
        have hxe : parseRes x.name = e.1 := by simpa using hcontra.2
        exact hk (hxe ▸ this)
    have hk0 : parseRes a.name ∈ s.resolution_links.map (fun e => e.1) := by
      apply hasKey_of_bucketGet_ne_nil
      rw [hbk (parseRes a.name)]
      intro hnil
      have : a ∈ s.acceptedTrace.filter (fun l => parseRes l.name == parseRes a.name) :=
        List.mem_filter.mpr ⟨hat, by simp⟩
      rw [hnil] at this
      simp at this
    rw [h1, ← hq]
    rw [List.map_congr_left hentq]
    rw [hq]
    exact flatten_if_single _ s.resolution_links (parseRes a.name) hnd hk0

theorem sorted_filter_eq_trace (arrivals : List StreamLink) (m : Int) (q : Nat) :
    (sortRanked rank_quality (chainLinks (runAgg parseRes arrivals m))).filter
        (fun l => rank_quality l.name == q)
      = (runAgg parseRes arrivals m).acceptedTrace.filter
        (fun l => rank_quality l.name == q) := by
  rw [filter_sortRanked]
  exact filter_chainLinks _ (runAgg_inv parseRes arrivals m) q

/- ----------------------------------------------------------------- -/
/- Scenario A: exactly two resolution labels, cap 4.                  -/
/- ----------------------------------------------------------------- -/

theorem aggLoop_two_labels (parse : String → String) (A B : String) (hAB : A ≠ B) :
    ∀ (rest : List StreamLink) (s : AggState),
    (∀ l ∈ rest, parse l.name = A ∨ parse l.name = B) →
    (bucketGet s.resolution_links A).length ≤ 2 →
    (bucketGet s.resolution_links B).length ≤ 2 →
    s.total_links = (bucketGet s.resolution_links A).length
      + (bucketGet s.resolution_links B).length →
    (aggLoop parse 4 rest s).total_links
      = min ((bucketGet s.resolution_links A).length
          + rest.countP (fun l => parse l.name == A)) 2
      + min ((bucketGet s.resolution_links B).length
          + rest.countP (fun l => parse l.name == B)) 2 := by
  intro rest
  induction rest with
  | nil =>
    intro s _ hA2 hB2 htot
    rw [aggLoop_nil]
    simp only [List.countP_nil, Nat.add_zero]
    omega
  | cons link rest' ih =>
    intro s hlab hA2 hB2 htot
    have hlabs : ∀ l ∈ rest', parse l.name = A ∨ parse l.name = B :=
      fun l hl => hlab l (List.mem_cons_of_mem _ hl)
    have hch : ceilHalf 4 = (2 : Int) := by decide
    have hBA : B ≠ A := fun h => hAB h.symm
    rcases hlab link (List.mem_cons_self _ _) with hA | hB
    · have hcA : (link :: rest').countP (fun l => parse l.name == A)
          = rest'.countP (fun l => parse l.name == A) + 1 := by
        rw [List.countP_cons]
        simp [hA]
      have hcB : (link :: rest').countP (fun l => parse l.name == B)
          = rest'.countP (fun l => parse l.name == B) := by
        rw [List.countP_cons]
        simp [hA, hAB]
      by_cases hskip : ceilHalf 4 ≤
          ((bucketGet (bucketTouch s.resolution_links (parse link.name))
            (parse link.name)).length : Int)
      · have hlenA : (bucketGet s.resolution_links A).length = 2 := by
          rw [bucketGet_touch, hA, hch] at hskip
          omega
        rw [aggLoop_cons_skip parse 4 link rest' s hskip]
        have hrec := ih { s with
            total_processed := s.total_processed + 1
            , resolution_links := bucketTouch s.resolution_links (parse link.name) }
          hlabs (by simpa [bucketGet_touch] using hA2)
          (by simpa [bucketGet_touch] using hB2)
          (by simpa [bucketGet_touch] using htot)
        rw [hrec]
        simp only [bucketGet_touch]
        rw [hcA, hcB]
        omega
      · have hlenA1 : (bucketGet s.resolution_links A).length ≤ 1 := by
          rw [bucketGet_touch, hA, hch] at hskip
          omega
        by_cases hbr : (4 : Int) ≤ ((s.total_links + 1 : Nat) : Int)
        · rw [aggLoop_cons_accept_break parse 4 link rest' s hskip hbr]
          dsimp only
          rw [hcA, hcB]
          omega
        · rw [aggLoop_cons_accept_continue parse 4 link rest' s hskip hbr]
          rw [hA]
          have hga : bucketGet (bucketAppend
              (bucketTouch s.resolution_links A) A link) A
              = bucketGet s.resolution_links A ++ [link] := by
            rw [bucketGet_append_self, bucketGet_touch]
          have hgb : bucketGet (bucketAppend
              (bucketTouch s.resolution_links A) A link) B
              = bucketGet s.resolution_links B := by
            rw [bucketGet_append_ne _ _ _ _ hBA, bucketGet_touch]
          have hrec := ih { s with
              total_processed := s.total_processed + 1
              , resolution_links := bucketAppend (bucketTouch s.resolution_links A) A link
              , total_links := s.total_links + 1
              , acceptedTrace := s.acceptedTrace ++ [link] }
            hlabs
            (by simp only [hga, List.length_append, List.length_singleton]; omega)
            (by simp only [hgb]; exact hB2)
            (by simp only [hga, hgb, List.length_append, List.length_singleton]; omega)
          rw [hrec]
          simp only [hga, hgb, List.length_append, List.length_singleton]
          rw [hcA, hcB]
          omega
    · have hcB : (link :: rest').countP (fun l => parse l.name == B)
          = rest'.countP (fun l => parse l.name == B) + 1 := by
        rw [List.countP_cons]
        simp [hB]
      have hcA : (link :: rest').countP (fun l => parse l.name == A)
          = rest'.countP (fun l => parse l.name == A) := by
        rw [List.countP_cons]
        simp [hB, hBA]
      by_cases hskip : ceilHalf 4 ≤
          ((bucketGet (bucketTouch s.resolution_links (parse link.name))
            (parse link.name)).length : Int)
      · have hlenB : (bucketGet s.resolution_links B).length = 2 := by
          rw [bucketGet_touch, hB, hch] at hskip
          omega
        rw [aggLoop_cons_skip parse 4 link rest' s hskip]
        have hrec := ih { s with
            total_processed := s.total_processed + 1
            , resolution_links := bucketTouch s.resolution_links (parse link.name) }
          hlabs (by simpa [bucketGet_touch] using hA2)
          (by simpa [bucketGet_touch] using hB2)
          (by simpa [bucketGet_touch] using htot)
        rw [hrec]
        simp only [bucketGet_touch]
        rw [hcA, hcB]
        omega
      · have hlenB1 : (bucketGet s.resolution_links B).length ≤ 1 := by
          rw [bucketGet_touch, hB, hch] at hskip
          omega
        by_cases hbr : (4 : Int) ≤ ((s.total_links + 1 : Nat) : Int)
        · rw [aggLoop_cons_accept_break parse 4 link rest' s hskip hbr]
          dsimp only
          rw [hcA, hcB]
          omega
        · rw [aggLoop_cons_accept_continue parse 4 link rest' s hskip hbr]
          rw [hB]
          have hgb : bucketGet (bucketAppend
              (bucketTouch s.resolution_links B) B link) B
              = bucketGet s.resolution_links B ++ [link] := by
            rw [bucketGet_append_self, bucketGet_touch]
          have hga : bucketGet (bucketAppend
              (bucketTouch s.resolution_links B) B link) A
              = bucketGet s.resolution_links A := by
            rw [bucketGet_append_ne _ _ _ _ hAB, bucketGet_touch]
          have hrec := ih { s with
              total_processed := s.total_processed + 1
              , resolution_links := bucketAppend (bucketTouch s.resolution_links B) B link
              , total_links := s.total_links + 1
              , acceptedTrace := s.acceptedTrace ++ [link] }
            hlabs
            (by simp only [hga]; exact hA2)
            (by simp only [hgb, List.length_append, List.length_singleton]; omega)
            (by simp only [hga, hgb, List.length_append, List.length_singleton]; omega)
          rw [hrec]
          simp only [hga, hgb, List.length_append, List.length_singleton]
          rw [hcA, hcB]
          omega

theorem countP_disjoint_le (p pq : StreamLink → Bool)
    (hdis : ∀ x, ¬(p x = true ∧ pq x = true)) :
    ∀ l : List StreamLink, l.countP p + l.countP pq ≤ l.length := by
  intro l
  induction l with
  | nil => simp
  | cons x xs ih =>
    rw [List.countP_cons, List.countP_cons, List.length_cons]
    have hd := hdis x
    cases hp : p x
    · cases hq : pq x
      · simp only [hp, hq, Bool.false_eq_true, if_false]
        omega
      · simp only [hp, hq, if_true, Bool.false_eq_true, if_false]
        omega
    · cases hq : pq x
      · simp only [hp, hq, if_true, Bool.false_eq_true, if_false]
        omega
      · exact absurd ⟨hp, hq⟩ hd

theorem all_mem_of_countP_add (p pq : StreamLink → Bool)
    (hdis : ∀ x, ¬(p x = true ∧ pq x = true)) :
    ∀ l : List StreamLink, l.countP p + l.countP pq = l.length →
    ∀ x ∈ l, p x = true ∨ pq x = true := by
  intro l
  induction l with
  | nil => intro _ x hx; simp at hx
  | cons y ys ih =>
    intro hsum x hx
    rw [List.countP_cons, List.countP_cons, List.length_cons] at hsum
    rcases List.mem_cons.mp hx with rfl | hx'
    · cases hp : p x
      · cases hq : pq x
        · exfalso
          simp only [hp, hq, Bool.false_eq_true, if_false] at hsum
          have := countP_disjoint_le p pq hdis ys
          omega
        · exact Or.inr rfl
      · exact Or.inl rfl
    · apply ih _ x hx'
      have hd := hdis y
      cases hp : p y
      · cases hq : pq y
        · simp only [hp, hq, Bool.false_eq_true, if_false] at hsum
          have := countP_disjoint_le p pq hdis ys
          omega
        · simp only [hp, hq, if_true, Bool.false_eq_true, if_false] at hsum
          omega
      · cases hq : pq y
        · simp only [hp, hq, if_true, Bool.false_eq_true, if_false] at hsum
          omega
        · exact absurd ⟨hp, hq⟩ hd

/- ----------------------------------------------------------------- -/
/- Claims.                                                            -/
/- ----------------------------------------------------------------- -/

/-- C1: for every global cap G ≥ 0, every resolution parser and every
resolver output sequence, the aggregation loop of `_search` accepts at most
G links in total (both the counter and the bucket contents), and every
resolution bucket holds at most ceil(G/2) accepted links.  The arrival
sequence is universally quantified and every intermediate state of the loop
is the final state of the run on a prefix of the arrivals, so the bounds
hold at every point during and after the loop. -/
theorem C1_cap_invariants (parse : String → String) (G : Int) (hG : 0 ≤ G)
    (arrivals : List StreamLink) :
    ((runAgg parse arrivals G).total_links : Int) ≤ G ∧
    ((sumLens (runAgg parse arrivals G).resolution_links : Nat) : Int) ≤ G ∧
    ∀ k, ((bucketGet (runAgg parse arrivals G).resolution_links k).length : Int)
      ≤ ceilHalf G := by
  have hb := aggLoop_bounds parse G arrivals initAggState
    (by
      dsimp only [initAggState]
      unfold ceilHalf
      omega)
    (by
      intro k
      dsimp only [initAggState]
      rw [bucketGet_nil]
      simpa using ceilHalf_nonneg G hG)
  obtain ⟨_, _, hsum, _⟩ := runAgg_inv parse arrivals G
  unfold runAgg at hsum ⊢
  refine ⟨hb.1, ?_, hb.2⟩
  rw [hsum]
  exact hb.1

/-- C1 witness: a concrete run with cap 4 over three links. -/
theorem C1_cap_invariants_witness :
    ((runAgg parseRes [⟨"u1", "a.1080p", 1⟩, ⟨"u2", "b.1080p", 2⟩,
        ⟨"u3", "c.720p", 3⟩] 4).total_links : Int) ≤ 4 ∧
    ((bucketGet (runAgg parseRes [⟨"u1", "a.1080p", 1⟩, ⟨"u2", "b.1080p", 2⟩,
        ⟨"u3", "c.720p", 3⟩] 4).resolution_links "1080p").length : Int) ≤ ceilHalf 4 :=
  ⟨(C1_cap_invariants parseRes 4 (by decide)
      [⟨"u1", "a.1080p", 1⟩, ⟨"u2", "b.1080p", 2⟩, ⟨"u3", "c.720p", 3⟩]).1,
   (C1_cap_invariants parseRes 4 (by decide)
      [⟨"u1", "a.1080p", 1⟩, ⟨"u2", "b.1080p", 2⟩, ⟨"u3", "c.720p", 3⟩]).2.2 "1080p"⟩

/-- C2: the claim says the stop event is set exactly when the total number
of accepted links reaches the cap.  The source never calls `stop.set()`:
with cap 1 and two arriving links the loop accepts one link, reaching the
cap and breaking out after consuming only the first arrival, yet the stop
event is still unset, so the resolver is never signalled. -/
theorem C2_stop_event_never_set :
    (runAgg parseRes [⟨"u1", "a.1080p", 1⟩, ⟨"u2", "b.720p", 2⟩] 1).total_links = 1 ∧
    (runAgg parseRes [⟨"u1", "a.1080p", 1⟩, ⟨"u2", "b.720p", 2⟩] 1).total_processed = 1 ∧
    (runAgg parseRes [⟨"u1", "a.1080p", 1⟩, ⟨"u2", "b.720p", 2⟩] 1).stop_is_set = false := by
  refine ⟨?_, ?_, ?_⟩ <;> decide

/-- C3 counterexample: with cap 0 and one arriving link the loop consumes
the arrival (total_processed = 1, the claim says no links are consumed) and
never signals cancellation (the claim says the stop event is set
immediately); only the accepted count is 0 as claimed. -/
theorem C3_counterexample :
    (runAgg parseRes [⟨"u1", "a.1080p", 1⟩] 0).total_processed = 1 ∧
    (runAgg parseRes [⟨"u1", "a.1080p", 1⟩] 0).stop_is_set = false ∧
    (runAgg parseRes [⟨"u1", "a.1080p", 1⟩] 0).total_links = 0 := by
  refine ⟨?_, ?_, ?_⟩ <;> decide

/-- C3 amended: when the cap is ≤ 0 the loop accepts no links, but it
consumes every link of the resolver's stream (the per-bucket cap
ceil(cap/2) ≤ 0 makes every arrival a discard, and the break is never
reached) and it never sets the stop event. -/
theorem C3_cap_nonpositive (parse : String → String) (m : Int) (hm : m ≤ 0)
    (arrivals : List StreamLink) :
    (runAgg parse arrivals m).total_links = 0 ∧
    (runAgg parse arrivals m).total_processed = arrivals.length ∧
    (runAgg parse arrivals m).stop_is_set = false := by
  have h := aggLoop_nonpos_cap parse m (ceilHalf_nonpos m hm) arrivals initAggState
  unfold runAgg
  refine ⟨?_, ?_, ?_⟩
  · rw [h.1]; rfl
  · rw [h.2.2]
    dsimp only [initAggState]
    omega
  · rw [aggLoop_stop]; rfl

/-- C3 witness: the amended statement at cap 0 with one arriving link. -/
theorem C3_cap_nonpositive_witness :
    (runAgg parseRes [⟨"u1", "a.1080p", 1⟩] 0).total_links = 0 ∧
    (runAgg parseRes [⟨"u1", "a.1080p", 1⟩] 0).total_processed = 1 ∧
    (runAgg parseRes [⟨"u1", "a.1080p", 1⟩] 0).stop_is_set = false :=
  C3_cap_nonpositive parseRes 0 (by decide) [⟨"u1", "a.1080p", 1⟩]

/-- C4: when the metadata lookup returns nothing, `_search` returns an
empty stream list with the error message exactly "Error getting media
info", and no later stage (indexer search, aggregation, ranking/formatting)
runs. -/
theorem C4_metadata_missing (providerParams : List String) (short_name : String)
    (env : SearchEnv) (m : Int) (hmi : env.media_info = none) :
    (_search providerParams short_name env m).1
      = .ok { streams := [], error := some "Error getting media info" } ∧
    (_search providerParams short_name env m).2
      = [.uniqueCheck, .metadataLookup] ∧
    Stage.indexerSearch ∉ (_search providerParams short_name env m).2 ∧
    Stage.aggregate ∉ (_search providerParams short_name env m).2 ∧
    Stage.rankFormat ∉ (_search providerParams short_name env m).2 := by
  unfold _search
  rw [hmi]
  dsimp only
  refine ⟨rfl, rfl, ?_, ?_, ?_⟩ <;> decide

/-- C4 witness: a concrete request whose metadata lookup returns none. -/
theorem C4_metadata_missing_witness :
    (_search offcloud_stream_links_params "offcloud"
        ⟨true, none, [], []⟩ 5).1
      = .ok { streams := [], error := some "Error getting media info" } ∧
    Stage.indexerSearch ∉ (_search offcloud_stream_links_params "offcloud"
        ⟨true, none, [], []⟩ 5).2 :=
  ⟨(C4_metadata_missing offcloud_stream_links_params "offcloud"
      ⟨true, none, [], []⟩ 5 rfl).1,
   (C4_metadata_missing offcloud_stream_links_params "offcloud"
      ⟨true, none, [], []⟩ 5 rfl).2.2.1⟩

/-- C5: `search` converts every fault escaping the inner pipeline into the
well-formed generic error response (empty streams, "Error searching"),
never re-raising, and on every exit path it records the duration labels
exactly once, with the error label true on the fault path (and on the
success path exactly when the response carries an error message). -/
theorem C5_error_boundary (type : String) (debrid_id : String)
    (outcome : Except Fault StreamResponse) :
    (search type debrid_id outcome).2.length = 1 ∧
    (∀ f, outcome = .error f →
      (search type debrid_id outcome).1
          = { streams := [], error := some "Error searching" } ∧
      (search type debrid_id outcome).2
          = [{ type := type, debrid_service := debrid_id
             , cached := false, error := true }]) ∧
    (∀ r, outcome = .ok r →
      (search type debrid_id outcome).1 = r ∧
      (search type debrid_id outcome).2
          = [{ type := type, debrid_service := debrid_id
             , cached := r.cached, error := r.error.isSome }]) := by
  refine ⟨?_, ?_, ?_⟩
  · cases outcome <;> rfl
  · intro f hf
    subst hf
    exact ⟨rfl, rfl⟩
  · intro r hr
    subst hr
    exact ⟨rfl, rfl⟩

/-- C5 witness: the boundary at a concrete mid-stream fault. -/
theorem C5_error_boundary_witness :
    (search "series" "offcloud" (Except.error Fault.other)).2.length = 1 ∧
    (search "series" "offcloud" (Except.error Fault.other)).1
      = { streams := [], error := some "Error searching" } ∧
    (search "series" "offcloud" (Except.error Fault.other)).2
      = [{ type := "series", debrid_service := "offcloud"
         , cached := false, error := true }] :=
  ⟨(C5_error_boundary "series" "offcloud" (Except.error Fault.other)).1,
   ((C5_error_boundary "series" "offcloud" (Except.error Fault.other)).2.1
      Fault.other rfl).1,
   ((C5_error_boundary "series" "offcloud" (Except.error Fault.other)).2.1
      Fault.other rfl).2⟩

/-- C6: ranking is stable with respect to arrival order: two accepted links
with equal quality scores appear in the ranked output in their acceptance
(= arrival) order.  The statement places no restriction on the resolution
buckets of the two links; under the modelled score, equal scores force equal
resolution labels, hence the same bucket, and the stable descending sort of
the chained buckets preserves their order. -/
theorem C6_ranking_stable (arrivals : List StreamLink) (m : Int)
    (a b : StreamLink) (hrank : rank_quality a.name = rank_quality b.name)
    (hsub : List.Sublist [a, b] (runAgg parseRes arrivals m).acceptedTrace) :
    List.Sublist [a, b]
      (sortRanked rank_quality (chainLinks (runAgg parseRes arrivals m))) := by
  have key := sorted_filter_eq_trace arrivals m (rank_quality a.name)
  have hsubf := List.Sublist.filter
    (fun l => rank_quality l.name == rank_quality a.name) hsub
  have hab : [a, b].filter (fun l => rank_quality l.name == rank_quality a.name)
      = [a, b] := by
    simp [List.filter_cons, ← hrank]
  rw [hab] at hsubf
  rw [← key] at hsubf
  exact hsubf.trans (List.filter_sublist _)

/-- C6 witness: two links of equal score (Scenario E shape), both accepted,
preserved in arrival order by the ranked output. -/
theorem C6_ranking_stable_witness :
    rank_quality "A.1080p.x264" = rank_quality "B.1080p.x265" ∧
    List.Sublist
      [(⟨"u1", "A.1080p.x264", 1⟩ : StreamLink), ⟨"u2", "B.1080p.x265", 2⟩]
      (runAgg parseRes
        [⟨"u1", "A.1080p.x264", 1⟩, ⟨"u2", "B.1080p.x265", 2⟩] 10).acceptedTrace ∧
    List.Sublist
      [(⟨"u1", "A.1080p.x264", 1⟩ : StreamLink), ⟨"u2", "B.1080p.x265", 2⟩]
      (sortRanked rank_quality (chainLinks (runAgg parseRes
        [⟨"u1", "A.1080p.x264", 1⟩, ⟨"u2", "B.1080p.x265", 2⟩] 10))) :=
  ⟨by decide, by decide,
   C6_ranking_stable [⟨"u1", "A.1080p.x264", 1⟩, ⟨"u2", "B.1080p.x265", 2⟩] 10
     ⟨"u1", "A.1080p.x264", 1⟩ ⟨"u2", "B.1080p.x265", 2⟩ (by decide) (by decide)⟩

/-- C7: Scenario A: for every arrival order of five links of which exactly
three parse to resolution "1080p" and exactly two to "720p", with global cap
4 the loop accepts exactly 4 links in total, at most 2 in the "1080p" bucket
and at most 2 in the "720p" bucket. -/
theorem C7_scenario_a (parse : String → String) (arrivals : List StreamLink)
    (hlen : arrivals.length = 5)
    (hA : arrivals.countP (fun l => parse l.name == "1080p") = 3)
    (hB : arrivals.countP (fun l => parse l.name == "720p") = 2) :
    (runAgg parse arrivals 4).total_links = 4 ∧
    (bucketGet (runAgg parse arrivals 4).resolution_links "1080p").length ≤ 2 ∧
    (bucketGet (runAgg parse arrivals 4).resolution_links "720p").length ≤ 2 := by
  have hAB : ("1080p" : String) ≠ "720p" := by decide
  have hdis : ∀ x : StreamLink,
      ¬((parse x.name == "1080p") = true ∧ (parse x.name == "720p") = true) := by
    rintro x ⟨h1, h2⟩
    rw [beq_iff_eq] at h1 h2
    exact hAB (by rw [← h1, h2])
  have hall : ∀ l ∈ arrivals, parse l.name = "1080p" ∨ parse l.name = "720p" := by
    have hmem := all_mem_of_countP_add _ _ hdis arrivals (by rw [hA, hB, hlen])
    intro l hl
    rcases hmem l hl with h | h
    · exact Or.inl (by simpa using h)
    · exact Or.inr (by simpa using h)
  have hbounds := aggLoop_bounds parse 4 arrivals initAggState
    (by
      dsimp only [initAggState]
      left
      simp)
    (by
      intro k
      dsimp only [initAggState]
      rw [bucketGet_nil]
      decide)
  have htwo := aggLoop_two_labels parse "1080p" "720p" hAB arrivals initAggState
    hall
    (by dsimp only [initAggState]; rw [bucketGet_nil]; decide)
    (by dsimp only [initAggState]; rw [bucketGet_nil]; decide)
    (by dsimp only [initAggState]; rw [bucketGet_nil, bucketGet_nil]; rfl)
  have hch : ceilHalf 4 = (2 : Int) := by decide
  refine ⟨?_, ?_, ?_⟩
  · unfold runAgg
    rw [htwo]
    dsimp only [initAggState]
    rw [bucketGet_nil, bucketGet_nil, hA, hB]
    decide
  · have := hbounds.2 "1080p"
    rw [hch] at this
    unfold runAgg
    omega
  · have := hbounds.2 "720p"
    rw [hch] at this
    unfold runAgg
    omega

/-- C7 witness: a concrete arrival order of three "1080p" and two "720p"
links with cap 4. -/
theorem C7_scenario_a_witness :
    (runAgg parseRes [⟨"u1", "a.1080p", 1⟩, ⟨"u2", "b.1080p", 2⟩,
        ⟨"u3", "c.1080p", 3⟩, ⟨"u4", "d.720p", 4⟩, ⟨"u5", "e.720p", 5⟩]
      4).total_links = 4 ∧
    (bucketGet (runAgg parseRes [⟨"u1", "a.1080p", 1⟩, ⟨"u2", "b.1080p", 2⟩,
        ⟨"u3", "c.1080p", 3⟩, ⟨"u4", "d.720p", 4⟩, ⟨"u5", "e.720p", 5⟩]
      4).resolution_links "1080p").length ≤ 2 ∧
    (bucketGet (runAgg parseRes [⟨"u1", "a.1080p", 1⟩, ⟨"u2", "b.1080p", 2⟩,
        ⟨"u3", "c.1080p", 3⟩, ⟨"u4", "d.720p", 4⟩, ⟨"u5", "e.720p", 5⟩]
      4).resolution_links "720p").length ≤ 2 :=
  C7_scenario_a parseRes
    [⟨"u1", "a.1080p", 1⟩, ⟨"u2", "b.1080p", 2⟩, ⟨"u3", "c.1080p", 3⟩,
     ⟨"u4", "d.720p", 4⟩, ⟨"u5", "e.720p", 5⟩]
    (by decide) (by decide) (by decide)

/-- C8: the formatting stage is a per-link map: it produces exactly one
display stream per accepted link, the number of output streams equals the
number of accepted links, and the ranked order is preserved unchanged
(the output is literally the elementwise image of the ranked sequence). -/
theorem C8_formatting_one_to_one (arrivals : List StreamLink) (m : Int)
    (short_name : String) :
    (sortRanked rank_quality (chainLinks (runAgg parseRes arrivals m))).length
      = (runAgg parseRes arrivals m).total_links ∧
    (buildStreams short_name
        (sortRanked rank_quality (chainLinks (runAgg parseRes arrivals m)))).length
      = (runAgg parseRes arrivals m).total_links ∧
    buildStreams short_name
        (sortRanked rank_quality (chainLinks (runAgg parseRes arrivals m)))
      = (sortRanked rank_quality
          (chainLinks (runAgg parseRes arrivals m))).map (mkStream short_name) := by
  obtain ⟨_, _, hsum, _⟩ := runAgg_inv parseRes arrivals m
  have hchain : (chainLinks (runAgg parseRes arrivals m)).length
      = (runAgg parseRes arrivals m).total_links := by
    unfold chainLinks
    rw [List.length_flatten, List.map_map]
    exact hsum
  refine ⟨?_, ?_, rfl⟩
  · rw [length_sortRanked]
    exact hchain
  · unfold buildStreams
    rw [List.length_map, length_sortRanked]
    exact hchain

/-- C9 counterexample: a request routed to OffCloud whose metadata lookup
returns nothing gets the metadata error message, not the claimed generic
"Error searching" response: the claim does not hold for every request. -/
theorem C9_counterexample :
    (search "movie" "offcloud"
        (_search offcloud_stream_links_params "offcloud"
          ⟨true, none, [], []⟩ 5).1).1.error
      = some "Error getting media info" ∧
    (search "movie" "offcloud"
        (_search offcloud_stream_links_params "offcloud"
          ⟨true, none, [], []⟩ 5).1).1.error
      ≠ some "Error searching" := by
  refine ⟨rfl, ?_⟩
  decide

/-- C9 amended: every request routed to the OffCloud provider whose
metadata lookup succeeds returns the generic error response (empty streams,
"Error searching"): when the pipeline reaches the resolver call, the
keyword argument season_episode passed by `_search` matches no parameter of
`OffCloud.get_stream_links`, so the call raises TypeError, which `search`
converts to the generic error response (the only other pre-call failure,
the year extraction, raises ValueError with the same outcome). -/
theorem C9_offcloud_type_error (type : String) (env : SearchEnv) (m : Int)
    (mi : MediaInfo) (hmi : env.media_info = some mi) :
    (search type "offcloud"
        (_search offcloud_stream_links_params "offcloud" env m).1).1
      = { streams := [], error := some "Error searching" } := by
  have hkw : unexpected_kwarg offcloud_stream_links_params
      stream_links_call_kwargs = true := by decide
  unfold _search
  rw [hmi]
  dsimp only
  cases hy : parseYear mi.releaseInfo with
  | none => rfl
  | some y =>
    rw [if_pos hkw]
    rfl

/-- C9 witness: the amended statement at a concrete request with metadata
found. -/
theorem C9_offcloud_type_error_witness :
    (search "movie" "offcloud"
        (_search offcloud_stream_links_params "offcloud"
          ⟨true, some ⟨"X", "2020"⟩, [], []⟩ 5).1).1
      = { streams := [], error := some "Error searching" } :=
  C9_offcloud_type_error "movie" ⟨true, some ⟨"X", "2020"⟩, [], []⟩ 5
    ⟨"X", "2020"⟩ rfl

/-- C10: every StreamLink constructed by `OffCloud.get_stream_link` has
size 0 regardless of the oracle inputs, so the size line of its formatted
display stream renders the zero byte count ("💾0.0B") instead of a real
file size. -/
theorem C10_offcloud_size_zero (is_video : String → Bool)
    (seasonsOf episodesOf : String → List Nat) (env : OffCloudEnv)
    (season episode : Nat) (sl : StreamLink) (short_name : String)
    (h : get_stream_link is_video seasonsOf episodesOf env season episode
        = some sl) :
    sl.size = 0 ∧ sizeLine sl = "💾0.0B" ∧
    (mkStream short_name sl).title = String.intercalate "\n"
      [sl.name, "📺" ++ (parse_title sl.name).resolution,
       "🔊" ++ (parse_title sl.name).audio, "💾0.0B"] := by
  have hsize : sl.size = 0 := by
    unfold get_stream_link at h
    cases hmr : env.magnet_response with
    | none => rw [hmr] at h; simp at h
    | some mr =>
      rw [hmr] at h
      dsimp only at h
      cases hst : (mr.status != "downloaded") with
      | true => rw [if_pos hst] at h; simp at h
      | false =>
        rw [if_neg (by simp [hst])] at h
        cases hti : env.torrent_info with
        | none => rw [hti] at h; simp at h
        | some ti =>
          rw [hti] at h
          dsimp only at h
          cases hdl : create_download_link is_video seasonsOf episodesOf env
              mr.request_id ti.status season episode with
          | none => rw [hdl] at h; simp at h
          | some dl =>
            rw [hdl] at h
            have := Option.some.inj h
            rw [← this]
  have hline : sizeLine sl = "💾0.0B" := by
    unfold sizeLine
    rw [hsize]
    decide
  refine ⟨hsize, hline, ?_⟩
  unfold mkStream
  dsimp only
  rw [hline]

/-- C10 witness: a concrete OffCloud resolution (downloaded magnet, plain
file) whose constructed link has size 0 and renders the zero size line. -/
theorem C10_offcloud_size_zero_witness :
    (⟨"https://s1.offcloud.com/cloud/download/r1/f.mkv", "f.mkv", 0⟩
        : StreamLink).size = 0 ∧
    sizeLine ⟨"https://s1.offcloud.com/cloud/download/r1/f.mkv", "f.mkv", 0⟩
      = "💾0.0B" ∧
    (mkStream "offcloud"
        ⟨"https://s1.offcloud.com/cloud/download/r1/f.mkv", "f.mkv", 0⟩).title
      = String.intercalate "\n"
        ["f.mkv", "📺" ++ (parse_title "f.mkv").resolution,
         "🔊" ++ (parse_title "f.mkv").audio, "💾0.0B"] :=
  C10_offcloud_size_zero (fun _ => true) (fun _ => []) (fun _ => [])
    ⟨some ⟨"r1", "downloaded"⟩, some ⟨⟨"s1", "f.mkv", false⟩⟩, none⟩
    0 0 ⟨"https://s1.offcloud.com/cloud/download/r1/f.mkv", "f.mkv", 0⟩
    "offcloud" (by decide)

end Annatar
